import Mathlib

/-!
Verification of the alignment-based read tagger of `ddSeeker.py`.

Reads, linkers and barcode blocks are modelled as `List Char`; Python string
slicing (including its negative-index and clamping semantics) is modelled by
`pySlice`.  The functions `hamming_dist`, `fix_block` and `make_tags` are
direct translations of the functions of the same names in `src/ddSeeker.py`.
The pairwise aligner used by the source (`Bio.pairwise2`, an external
library) is modelled from the specification, see `globalScore` and
`localAlign` below.  `make_tags` is parameterised over the local aligner so
that properties of the decision tree can be stated for any aligner; the
concrete spec-modelled aligner is `alignerSpec`.
-/

deriving instance DecidableEq for Except

set_option maxRecDepth 2000000

namespace DdSeeker

/-- Clamp a Python index to a natural index for a sequence of length `n`:
a negative index counts from the end, and the result is clamped below at 0. -/
def pyIndex (n : Nat) (i : Int) : Nat :=
  (if i < 0 then i + n else i).toNat

/-- Python slice `s[a:b]` (with clamping and negative-index wrap-around). -/
def pySlice (s : List Char) (a b : Int) : List Char :=
  (s.take (pyIndex s.length b)).drop (pyIndex s.length a)

/-- `str.upper()` (reads contain only ASCII nucleotide symbols). -/
def pyUpper (s : List Char) : List Char := s.map Char.toUpper

/-- `hamming_dist` from `src/ddSeeker.py` (lines 21-29): raises `ValueError`
on sequences of unequal length, modelled by the `Except.error` branch. -/
def hamming_dist (s1 s2 : List Char) : Except String Nat :=
  if s1.length ≠ s2.length then .error "Undefined for sequences of unequal length"
  else .ok ((s1.zip s2).countP fun p => p.1 != p.2)

/-- The try/except around `hamming_dist` in `make_tags` (lines 119-122 and
127-130): a raised `ValueError` is caught and the distance set to
`float("inf")`, modelled by `none`. -/
def hammingOrInf (s1 s2 : List Char) : Option Nat :=
  match hamming_dist s1 s2 with
  | .ok d => some d
  | .error _ => none

/-- `dist > 1` where `dist` is a natural number or `float("inf")` (`none`). -/
def distGtOne : Option Nat → Bool
  | none => true
  | some d => decide (1 < d)

/-! ### The sequence aligner

Modelled from the spec (§4.1): the source delegates alignment to
`Bio.pairwise2` (`localxs` / `globalxs`), an external library.  Identical
aligned symbols score +1, non-identical 0; gaps are affine: the opening gap
symbol costs the gap-open penalty and each further gap symbol the gap-extend
penalty.  Ties are resolved deterministically (first alignment under a fixed
traversal order). -/

/-- Sentinel for "no alignment reaches this cell". -/
def negInf : Int := -1000000

/-- A cell of the global dynamic program: best score of an alignment of the
processed prefixes ending in a match/mismatch column (`m`), in a gap column
of the second sequence (`x`), or in a gap column of the first sequence (`y`). -/
structure GCell where
  m : Int
  x : Int
  y : Int

/-- Best score over the three states of a cell. -/
def gBest (c : GCell) : Int := max c.m (max c.x c.y)

/-- One row of the global dynamic program (Gotoh recurrence, affine gaps). -/
def gRowCells (go ge : Int) (ac : Char) : List Char → List GCell → GCell → List GCell
  | bc :: bs, diag :: up :: rest, left =>
      let m := (if ac = bc then 1 else 0) + gBest diag
      let x := max (up.m + go) (max (up.x + ge) (up.y + go))
      let y := max (left.m + go) (max (left.x + go) (left.y + ge))
      let c : GCell := ⟨m, x, y⟩
      c :: gRowCells go ge ac bs (up :: rest) c
  | _, _, _ => []

/-- Modelled from the spec: optimal global alignment score of `a` and `b`
(match +1, mismatch 0, affine gap costs `go`/`ge`), as computed by
`Bio.pairwise2.align.globalxs(a, b, go, ge, score_only=True)`. -/
def globalScore (go ge : Int) (a b : List Char) : Int :=
  let row0 : List GCell :=
    (List.range (b.length + 1)).map fun j =>
      if j = 0 then ⟨0, negInf, negInf⟩ else ⟨negInf, negInf, go + ((j : Int) - 1) * ge⟩
  let fin := (a.foldl (fun (st : Nat × List GCell) ac =>
      let c0 : GCell := ⟨negInf, go + (st.1 : Int) * ge, negInf⟩
      (st.1 + 1, c0 :: gRowCells go ge ac b st.2 c0)) (0, row0)).2
  gBest (fin.getLastD ⟨negInf, negInf, negInf⟩)

/-- `fix_block` from `src/ddSeeker.py` (lines 31-49): return the first
dictionary entry whose global alignment score (gap open −1, gap extend −1)
against `block` reaches the length-dependent threshold, else `none`.
The barcode dictionary, a process-wide global in the source, is passed
explicitly. -/
def fix_block (bcs : List (List Char)) (block : List Char) : Option (List Char) :=
  match bcs with
  | [] => none
  | bc :: rest =>
      let score := globalScore (-1) (-1) bc block
      if (block.length = 5 ∧ 4 ≤ score) ∨ (6 ≤ block.length ∧ 5 ≤ score) then some bc
      else fix_block rest block

/-! ### The local aligner (spec-modelled)

`Bio.pairwise2.align.localxs(read, linker, go, ge, one_alignment_only=True)[0]`
returns a tuple `(seqA, seqB, score, begin, end)`: the two input sequences as
gap-annotated strings of equal length (for a local alignment, `seqB` is padded
with gap symbols outside the aligned window), the optimal local score, and the
column offsets of the aligned window.  Since no gap column precedes the
window, `begin` is also the read coordinate of the window start. -/

structure Alignment where
  /-- The read, gap-annotated (`seqA` of the pairwise2 tuple). -/
  seqA : List Char
  /-- The linker, padded and gap-annotated (`seqB` of the pairwise2 tuple). -/
  seqB : List Char
  /-- Optimal alignment score. -/
  score : Int
  /-- Column offset of the start of the aligned window (`begin`). -/
  bgn : Nat
  /-- Column offset of the end of the aligned window (`end`). -/
  fin : Nat

/-- A cell of the local dynamic program: the best local alignment path ending
at this cell, with its score, the read coordinate where it starts, its number
of alignment columns, and the gap-annotated window of both sequences
(reversed). -/
structure Cell where
  score : Int
  bgn : Nat
  cols : Nat
  ra : List Char
  rb : List Char

structure Cell3 where
  m : Cell
  x : Cell
  y : Cell

def negCell : Cell := ⟨negInf, 0, 0, [], []⟩

def negCell3 : Cell3 := ⟨negCell, negCell, negCell⟩

/-! Strictness combinators.  Each `seq…` function is an identity function
that evaluates (part of) its argument to normal form before passing it to the
continuation.  They exist purely so that closed instances of the aligner can
be evaluated by kernel reduction in bounded stack space (the dynamic program
is forced row by row instead of as one deeply nested lazy term); they do not
change any value. -/

def seqNat {α : Sort _} (n : Nat) (k : Nat → α) : α :=
  match n with
  | 0 => k 0
  | m + 1 => k (m + 1)

def seqInt {α : Sort _} (i : Int) (k : Int → α) : α :=
  match i with
  | .ofNat n => seqNat n fun n => k (.ofNat n)
  | .negSucc n => seqNat n fun n => k (.negSucc n)

/-- Force the score of a cell (the only field whose lazy evaluation chains
across rows). -/
def seqCell {α : Sort _} (c : Cell) (k : Cell → α) : α :=
  seqInt c.score fun s => k ⟨s, c.bgn, c.cols, c.ra, c.rb⟩

def seqCell3 {α : Sort _} (c : Cell3) (k : Cell3 → α) : α :=
  seqCell c.m fun m => seqCell c.x fun x => seqCell c.y fun y => k ⟨m, x, y⟩

def seqRow {α : Sort _} (l : List Cell3) (k : List Cell3 → α) : α :=
  List.rec (motive := fun _ => (List Cell3 → α) → α)
    (fun k => k [])
    (fun c _ ih k => seqCell3 c fun c => ih fun cs => k (c :: cs))
    l k

/-- Deterministic maximum: on ties the first argument wins (fixed traversal
order, as the spec requires deterministic tie-breaking). -/
def maxCell (c d : Cell) : Cell := if d.score ≤ c.score then c else d

/-- Add a penalty to the score of a cell. -/
def addS (c : Cell) (d : Int) : Cell := ⟨c.score + d, c.bgn, c.cols, c.ra, c.rb⟩

/-- Extend a path by one column pairing `ca` with `cb`. -/
def extCol (base : Cell) (d : Int) (ca cb : Char) : Cell :=
  ⟨base.score + d, base.bgn, base.cols + 1, ca :: base.ra, cb :: base.rb⟩

/-- One row of the local dynamic program (Smith-Waterman with affine gaps):
`ip` is the 0-based read coordinate of `ac`; the second argument is the list
of cells of the previous row starting at column `j-1` (so its first two
entries are the diagonal and upper neighbours), the third the cell to the
left.  In the `m` state a path may also start fresh at this cell (local
alignment), with score 0 and begin coordinate `ip`. -/
def rowCells (go ge : Int) (ip : Nat) (ac : Char) (b : List Char) :
    List Cell3 → Cell3 → List Cell3 :=
  List.rec (motive := fun _ => List Cell3 → Cell3 → List Cell3)
    (fun _ _ => [])
    (fun bc _ ih prev left =>
      match prev with
      | diag :: up :: rest =>
          let sub : Int := if ac = bc then 1 else 0
          let dbest := maxCell diag.m (maxCell diag.x (maxCell diag.y ⟨0, ip, 0, [], []⟩))
          let mc := extCol dbest sub ac bc
          let xc := extCol (maxCell (addS up.m go) (maxCell (addS up.x ge) (addS up.y go))) 0 ac '-'
          let yc := extCol (maxCell (addS left.m go) (maxCell (addS left.x go) (addS left.y ge))) 0 '-' bc
          let c : Cell3 := ⟨mc, xc, yc⟩
          c :: ih (up :: rest) c
      | _ => [])
    b

/-- Best match-ending cell found so far, with the read coordinate of its end
(the optimal local alignment never ends in a gap column). -/
structure BestCell where
  cell : Cell
  fin : Nat

/-- Update the running best cell; only a strictly better score replaces it, so
the first optimum in traversal order wins. -/
def updBest (i : Nat) (b : BestCell) (c : Cell3) : BestCell :=
  if b.cell.score < c.m.score then ⟨c.m, i⟩ else b

def seqBest {α : Sort _} (b : BestCell) (k : BestCell → α) : α :=
  seqCell b.cell fun c => seqNat b.fin fun f => k ⟨c, f⟩

def bestFold (i : Nat) (l : List Cell3) (b0 : BestCell) : BestCell :=
  List.rec (motive := fun _ => BestCell → BestCell)
    (fun b => b)
    (fun c _ ih b => ih (updBest i b c))
    l b0

/-- The dynamic-programming state: the number of read symbols processed, the
current row, and the best cell seen so far. -/
structure DPState where
  ip : Nat
  row : List Cell3
  best : BestCell

/-- Process one read symbol: compute the next row and update the best cell. -/
def dpStep (go ge : Int) (b : List Char) (st : DPState) (ac : Char) : DPState :=
  let row := negCell3 :: rowCells go ge st.ip ac b st.row negCell3
  ⟨st.ip + 1, row, bestFold (st.ip + 1) row st.best⟩

def forceState {α : Sort _} (st : DPState) (k : DPState → α) : α :=
  seqNat st.ip fun ip => seqRow st.row fun row => seqBest st.best fun bst =>
    k ⟨ip, row, bst⟩

/-- Run `dpStep` over the whole read.  The read is consumed eight symbols per
recursive call with a strictness barrier (`forceState`) in between, which
keeps kernel evaluation of closed instances within bounded stack space;
semantically this is just a left fold of `dpStep`. -/
def dpRun (go ge : Int) (b : List Char) : List Char → DPState → DPState
  | [], st => st
  | a1 :: a2 :: a3 :: a4 :: a5 :: a6 :: a7 :: a8 :: rest, st =>
      let st8 := dpStep go ge b (dpStep go ge b (dpStep go ge b (dpStep go ge b
        (dpStep go ge b (dpStep go ge b (dpStep go ge b (dpStep go ge b st a1)
          a2) a3) a4) a5) a6) a7) a8
      forceState st8 fun st8 => dpRun go ge b rest st8
  | a1 :: rest, st => dpRun go ge b rest (dpStep go ge b st a1)

/-- Modelled from the spec: optimal local alignment of `b` inside `a`
(match +1, mismatch 0, affine gap costs `go`/`ge`), as computed by
`Bio.pairwise2.align.localxs(a, b, go, ge, one_alignment_only=True)[0]`,
with deterministic tie-breaking. -/
def localAlign (go ge : Int) (a b : List Char) : Alignment :=
  let row0 : List Cell3 := List.replicate (b.length + 1) negCell3
  let st := dpRun go ge b a ⟨0, row0, ⟨⟨0, 0, 0, [], []⟩, 0⟩⟩
  let c := st.best.cell
  { seqA := a.take c.bgn ++ c.ra.reverse ++ a.drop st.best.fin
  , seqB := List.replicate c.bgn '-' ++ c.rb.reverse ++
      List.replicate (a.length - st.best.fin) '-'
  , score := c.score
  , bgn := c.bgn
  , fin := c.bgn + c.cols }

/-- The local aligner exactly as invoked by `make_tags` (line 71):
`local_alignment(read, linker, -2, -1, one_alignment_only=True)[0]`. -/
def alignerSpec (read linker : List Char) : Alignment := localAlign (-2) (-1) read linker

/-! ### The linker locator and the decision tree (`make_tags`, lines 51-146) -/

/-- The two fixed 15-symbol linkers (`_linkers`, line 16). -/
def linker1 : List Char := "TAGCCATCGCATTGC".toList

def linker2 : List Char := "TACCTCTGAGCTGAA".toList

/-- One iteration of the linker loop of `make_tags` (lines 70-93): classify an
alignment into a start offset and an indel adjustment `k`, or no match.
Returns `some (start, k)` exactly when the source appends non-`None` values
to `starts` and `k`. -/
def locateLinker (al : Alignment) : Option (Int × Int) :=
  let length := al.fin - al.bgn
  if (al.score = 14 ∨ al.score = 15) ∧ length = 15 then
    some ((al.bgn : Int), 0)
  else if al.score = 14 ∧ length = 14 then
    some ((al.bgn : Int) - 1, 0)
  else if '-' ∈ (al.seqA.take al.fin).drop al.bgn ∧ al.score = 12 ∧ length = 15 then
    some ((al.bgn : Int), -1)
  else if '-' ∈ al.seqB ∧ al.score = 13 ∧ length = 16 then
    some ((al.bgn : Int), 1)
  else
    none

/-- A SAM tag triple as returned by `make_tags`. -/
abbrev Tag := String × String × String

/-- The barcode-correction loop of `make_tags` (lines 136-142): correct each
block via `fix_block`; a falsy result (`None` or the empty string, Python
`if fixed:`) aborts with error `B`, modelled by `none`. -/
def fixBlocks (bcs : List (List Char)) : List (List Char) → Option (List (List Char))
  | [] => some []
  | b :: rest =>
      match fix_block bcs b with
      | some f => if f = [] then none else (fixBlocks bcs rest).map (f :: ·)
      | none => none

/-- `make_tags` lines 118-146: the ACG and GAC checkpoints, block 3, the
barcode-correction loop and the UMI.  `s2`/`k2` are `starts[1]`/`k[1]`,
`bc1`/`bc2` the previously derived blocks; the source's bindings `acg`,
`gac`, `bc3` and `umi` are the four read slices, inlined here at their single
use sites. -/
def checkpointsOnward (bcs : List (List Char)) (read : List Char) (s2 k2 : Int)
    (bc1 bc2 : List Char) : Except String (List Tag) :=
  if distGtOne (hammingOrInf (pySlice read (s2 + 21 + k2) (s2 + 24 + k2)) "ACG".toList) then
    .ok [("XE", "J", "Z")]
  else if distGtOne (hammingOrInf (pySlice read (s2 + 32 + k2) (s2 + 35 + k2)) "GAC".toList) then
    .ok [("XE", "K", "Z")]
  else
    match fixBlocks bcs [bc1, bc2, pySlice read (s2 + 15 + k2) (s2 + 21 + k2)] with
    | none => .ok [("XE", "B", "Z")]
    | some barcode =>
        .ok [("XB", barcode.flatten.asString, "Z"),
             ("XU", (pySlice read (s2 + 24 + k2) (s2 + 32 + k2)).asString, "Z")]

/-- `make_tags` lines 111-116: derive block 1 from the room before linker 1
(`s1 = starts[0]`), or fail with error `D`. -/
def deriveBc1 (bcs : List (List Char)) (read : List Char) (s1 s2 k2 : Int)
    (bc2 : List Char) : Except String (List Tag) :=
  if s1 < 5 then .ok [("XE", "D", "Z")]
  else if s1 = 5 then checkpointsOnward bcs read s2 k2 (pySlice read 0 s1) bc2
  else checkpointsOnward bcs read s2 k2 (pySlice read (s1 - 6) s1) bc2

/-- `make_tags` lines 102-109: derive block 2 from the gap between the linker
start offsets, or fail with error `I`. -/
def deriveBc2 (bcs : List (List Char)) (read : List Char) (s1 k1 s2 k2 : Int) :
    Except String (List Tag) :=
  if s2 - s1 = 21 + k1 then deriveBc1 bcs read s1 s2 k2 (pySlice read (s2 - 6) s2)
  else if s2 - s1 = 20 + k1 then deriveBc1 bcs read s1 s2 k2 (pySlice read (s2 - 5) s2)
  else if s2 - s1 = 22 + k1 then deriveBc1 bcs read s1 s2 k2 (pySlice read (s2 - 7) s2)
  else .ok [("XE", "I", "Z")]

/-- `make_tags` from `src/ddSeeker.py` (lines 51-146), parameterised over the
local aligner `A` and the barcode dictionary `bcs`.  The linker-error branch
(lines 95-100) tests Python truthiness `not starts[i]`, which holds both for
`None` (locator failure) and for a start offset of `0`; the `match` below
spells out the resulting case split.  Exceptions escaping `make_tags` would
be the `Except.error` branch; the only raising operation, `hamming_dist`, is
wrapped in try/except (`hammingOrInf`). -/
def make_tags (A : List Char → List Char → Alignment) (bcs : List (List Char))
    (read0 : List Char) : Except String (List Tag) :=
  let read := pyUpper read0
  match locateLinker (A read linker1), locateLinker (A read linker2) with
  | none, none => .ok [("XE", "LX", "Z")]
  | none, some (s2, _) => if s2 = 0 then .ok [("XE", "LX", "Z")] else .ok [("XE", "L1", "Z")]
  | some (s1, _), none => if s1 = 0 then .ok [("XE", "LX", "Z")] else .ok [("XE", "L2", "Z")]
  | some (s1, k1), some (s2, k2) =>
      if s1 = 0 ∧ s2 = 0 then .ok [("XE", "LX", "Z")]
      else if s1 = 0 then .ok [("XE", "L1", "Z")]
      else if s2 = 0 then .ok [("XE", "L2", "Z")]
      else deriveBc2 bcs read s1 k1 s2 k2

/-- An aligner returning two fixed alignments, one per linker.  Several
theorems below hold for every aligner `A`; their witnesses instantiate `A`
with such a fixed aligner. -/
def fixedAligner (al1 al2 : Alignment) : List Char → List Char → Alignment :=
  fun _ linker => if linker = linker1 then al1 else al2

/-- A bare alignment record carrying a score and window offsets. -/
def mkAl (sc : Int) (b e : Nat) : Alignment := ⟨[], [], sc, b, e⟩

/-! ### Helper lemmas -/

theorem pyIndex_nonneg (n : Nat) (i : Int) (h : 0 ≤ i) : pyIndex n i = i.toNat := by
  unfold pyIndex
  rw [if_neg (by omega)]

theorem pySlice_length (s : List Char) (a b : Int) :
    (pySlice s a b).length = min (pyIndex s.length b) s.length - pyIndex s.length a := by
  unfold pySlice
  rw [List.length_drop, List.length_take]

/-- Slicing out a segment whose boundaries fall on the segment exactly. -/
theorem pySlice_extract (xs ys zs : List Char) :
    pySlice (xs ++ ys ++ zs) (xs.length : Int) ((xs.length : Int) + (ys.length : Int)) = ys := by
  unfold pySlice
  rw [pyIndex_nonneg _ _ (by omega), pyIndex_nonneg _ _ (by omega)]
  have h1 : ((xs.length : Int) + (ys.length : Int)).toNat = (xs ++ ys).length := by
    rw [List.length_append]
    omega
  have h2 : ((xs.length : Int)).toNat = xs.length := by simp
  rw [h1, h2, List.take_left, List.drop_left]

/-- A located linker has a start offset ≥ −1 and an indel adjustment in
{−1, 0, 1}. -/
theorem locateLinker_bounds {al : Alignment} {s k : Int}
    (h : locateLinker al = some (s, k)) : -1 ≤ s ∧ (k = -1 ∨ k = 0 ∨ k = 1) := by
  unfold locateLinker at h
  simp only [] at h
  split_ifs at h <;> simp only [Option.some.injEq, Prod.mk.injEq] at h <;>
    obtain ⟨hs, hk⟩ := h <;> subst hs <;> subst hk <;> refine ⟨by omega, by omega⟩

/-- A corrected block returned by `fix_block` is a dictionary entry. -/
theorem fix_block_mem {bcs : List (List Char)} {block f : List Char}
    (h : fix_block bcs block = some f) : f ∈ bcs := by
  induction bcs with
  | nil => simp [fix_block] at h
  | cons bc rest ih =>
      unfold fix_block at h
      simp only [] at h
      split_ifs at h
      · cases h
        exact List.mem_cons_self _ _
      · exact List.mem_cons_of_mem _ (ih h)

/-- If a checkpoint passes (distance not greater than one), the sliced
substring has the reference length. -/
theorem distGtOne_false_length {s t : List Char}
    (h : distGtOne (hammingOrInf s t) = false) : s.length = t.length := by
  by_cases he : s.length = t.length
  · exact he
  · unfold hammingOrInf hamming_dist at h
    rw [if_pos he] at h
    simp [distGtOne] at h

/-- The barcode-correction loop on three blocks yields three dictionary
entries. -/
theorem fixBlocks_three {bcs : List (List Char)} {x y z : List Char}
    {l : List (List Char)} (h : fixBlocks bcs [x, y, z] = some l) :
    ∃ f1 f2 f3, l = [f1, f2, f3] ∧ f1 ∈ bcs ∧ f2 ∈ bcs ∧ f3 ∈ bcs := by
  unfold fixBlocks at h
  cases e1 : fix_block bcs x with
  | none => rw [e1] at h; exact Option.noConfusion h
  | some f1 =>
      rw [e1] at h
      simp only [] at h
      by_cases hf1 : f1 = []
      · rw [if_pos hf1] at h; cases h
      rw [if_neg hf1] at h
      unfold fixBlocks at h
      cases e2 : fix_block bcs y with
      | none => rw [e2] at h; simp at h
      | some f2 =>
          rw [e2] at h
          simp only [] at h
          by_cases hf2 : f2 = []
          · rw [if_pos hf2] at h; cases h
          rw [if_neg hf2] at h
          unfold fixBlocks at h
          cases e3 : fix_block bcs z with
          | none => rw [e3] at h; simp at h
          | some f3 =>
              rw [e3] at h
              simp only [] at h
              by_cases hf3 : f3 = []
              · rw [if_pos hf3] at h; cases h
              rw [if_neg hf3] at h
              unfold fixBlocks at h
              simp only [Option.map_some, Option.map] at h
              cases h
              exact ⟨f1, f2, f3, rfl, fix_block_mem e1, fix_block_mem e2, fix_block_mem e3⟩

/-- Case analysis of the checkpoint steps onward: error `J`, `K` or `B`, or a
success whose barcode is the concatenation of three dictionary entries and
whose UMI has exactly 8 symbols. -/
theorem checkpointsOnward_shape (bcs : List (List Char)) (read : List Char)
    (s2 k2 : Int) (bc1 bc2 : List Char) (hpos : 0 ≤ s2 + 21 + k2) :
    checkpointsOnward bcs read s2 k2 bc1 bc2 = .ok [("XE", "J", "Z")] ∨
    checkpointsOnward bcs read s2 k2 bc1 bc2 = .ok [("XE", "K", "Z")] ∨
    checkpointsOnward bcs read s2 k2 bc1 bc2 = .ok [("XE", "B", "Z")] ∨
    ∃ f1 f2 f3 u, f1 ∈ bcs ∧ f2 ∈ bcs ∧ f3 ∈ bcs ∧ List.length u = 8 ∧
      checkpointsOnward bcs read s2 k2 bc1 bc2 =
        .ok [("XB", (f1 ++ (f2 ++ f3)).asString, "Z"), ("XU", u.asString, "Z")] := by
  unfold checkpointsOnward
  by_cases hJ : distGtOne (hammingOrInf (pySlice read (s2 + 21 + k2) (s2 + 24 + k2)) "ACG".toList) = true
  · rw [if_pos hJ]
    exact Or.inl rfl
  rw [Bool.not_eq_true] at hJ
  rw [if_neg (by rw [hJ]; exact Bool.false_ne_true)]
  by_cases hK : distGtOne (hammingOrInf (pySlice read (s2 + 32 + k2) (s2 + 35 + k2)) "GAC".toList) = true
  · rw [if_pos hK]
    exact Or.inr (Or.inl rfl)
  rw [Bool.not_eq_true] at hK
  rw [if_neg (by rw [hK]; exact Bool.false_ne_true)]
  cases e : fixBlocks bcs [bc1, bc2, pySlice read (s2 + 15 + k2) (s2 + 21 + k2)] with
  | none =>
      exact Or.inr (Or.inr (Or.inl rfl))
  | some l =>
      obtain ⟨f1, f2, f3, hl, m1, m2, m3⟩ := fixBlocks_three e
      subst hl
      refine Or.inr (Or.inr (Or.inr ⟨f1, f2, f3, pySlice read (s2 + 24 + k2) (s2 + 32 + k2),
        m1, m2, m3, ?_, ?_⟩))
      · have hg := distGtOne_false_length hK
        rw [pySlice_length] at hg ⊢
        rw [pyIndex_nonneg _ _ (by omega), pyIndex_nonneg _ _ (by omega)] at hg
        rw [pyIndex_nonneg _ _ (by omega), pyIndex_nonneg _ _ (by omega)]
        have h3 : ("GAC".toList).length = 3 := rfl
        rw [h3] at hg
        omega
      · simp [List.flatten]

/-- Case analysis of block 1 derivation onward. -/
theorem deriveBc1_shape (bcs : List (List Char)) (read : List Char)
    (s1 s2 k2 : Int) (bc2 : List Char) (hpos : 0 ≤ s2 + 21 + k2) :
    deriveBc1 bcs read s1 s2 k2 bc2 = .ok [("XE", "D", "Z")] ∨
    deriveBc1 bcs read s1 s2 k2 bc2 = .ok [("XE", "J", "Z")] ∨
    deriveBc1 bcs read s1 s2 k2 bc2 = .ok [("XE", "K", "Z")] ∨
    deriveBc1 bcs read s1 s2 k2 bc2 = .ok [("XE", "B", "Z")] ∨
    ∃ f1 f2 f3 u, f1 ∈ bcs ∧ f2 ∈ bcs ∧ f3 ∈ bcs ∧ List.length u = 8 ∧
      deriveBc1 bcs read s1 s2 k2 bc2 =
        .ok [("XB", (f1 ++ (f2 ++ f3)).asString, "Z"), ("XU", u.asString, "Z")] := by
  unfold deriveBc1
  split_ifs with hlt heq
  · exact Or.inl rfl
  · rcases checkpointsOnward_shape bcs read s2 k2 (pySlice read 0 s1) bc2 hpos with
      h | h | h | h
    · exact Or.inr (Or.inl h)
    · exact Or.inr (Or.inr (Or.inl h))
    · exact Or.inr (Or.inr (Or.inr (Or.inl h)))
    · exact Or.inr (Or.inr (Or.inr (Or.inr h)))
  · rcases checkpointsOnward_shape bcs read s2 k2 (pySlice read (s1 - 6) s1) bc2 hpos with
      h | h | h | h
    · exact Or.inr (Or.inl h)
    · exact Or.inr (Or.inr (Or.inl h))
    · exact Or.inr (Or.inr (Or.inr (Or.inl h)))
    · exact Or.inr (Or.inr (Or.inr (Or.inr h)))

/-- Case analysis of block 2 derivation onward. -/
theorem deriveBc2_shape (bcs : List (List Char)) (read : List Char)
    (s1 k1 s2 k2 : Int) (hs1 : -1 ≤ s1) (hk1 : -1 ≤ k1) (hk2 : -1 ≤ k2) :
    deriveBc2 bcs read s1 k1 s2 k2 = .ok [("XE", "I", "Z")] ∨
    deriveBc2 bcs read s1 k1 s2 k2 = .ok [("XE", "D", "Z")] ∨
    deriveBc2 bcs read s1 k1 s2 k2 = .ok [("XE", "J", "Z")] ∨
    deriveBc2 bcs read s1 k1 s2 k2 = .ok [("XE", "K", "Z")] ∨
    deriveBc2 bcs read s1 k1 s2 k2 = .ok [("XE", "B", "Z")] ∨
    ∃ f1 f2 f3 u, f1 ∈ bcs ∧ f2 ∈ bcs ∧ f3 ∈ bcs ∧ List.length u = 8 ∧
      deriveBc2 bcs read s1 k1 s2 k2 =
        .ok [("XB", (f1 ++ (f2 ++ f3)).asString, "Z"), ("XU", u.asString, "Z")] := by
  unfold deriveBc2
  split_ifs with hg1 hg2 hg3
  · exact Or.inr (deriveBc1_shape bcs read s1 s2 k2 _ (by omega))
  · exact Or.inr (deriveBc1_shape bcs read s1 s2 k2 _ (by omega))
  · exact Or.inr (deriveBc1_shape bcs read s1 s2 k2 _ (by omega))
  · exact Or.inl rfl

/-- Full case analysis of `make_tags`: one of the eight error codes, or a
success consisting of a barcode tag (three dictionary entries concatenated)
and an 8-symbol UMI tag. -/
theorem make_tags_cases (A : List Char → List Char → Alignment)
    (bcs : List (List Char)) (read : List Char) :
    (∃ e, e ∈ ["LX", "L1", "L2", "I", "D", "J", "K", "B"] ∧
      make_tags A bcs read = .ok [("XE", e, "Z")]) ∨
    ∃ f1 f2 f3 u, f1 ∈ bcs ∧ f2 ∈ bcs ∧ f3 ∈ bcs ∧ List.length u = 8 ∧
      make_tags A bcs read =
        .ok [("XB", (f1 ++ (f2 ++ f3)).asString, "Z"), ("XU", u.asString, "Z")] := by
  unfold make_tags
  simp only []
  split
  · exact Or.inl ⟨"LX", by simp, rfl⟩
  · rename_i s2 k2 heq1 heq2
    by_cases hz : s2 = 0
    · rw [if_pos hz]
      exact Or.inl ⟨"LX", by simp, rfl⟩
    · rw [if_neg hz]
      exact Or.inl ⟨"L1", by simp, rfl⟩
  · rename_i s1 k1 heq1 heq2
    by_cases hz : s1 = 0
    · rw [if_pos hz]
      exact Or.inl ⟨"LX", by simp, rfl⟩
    · rw [if_neg hz]
      exact Or.inl ⟨"L2", by simp, rfl⟩
  · rename_i s1 k1 s2 k2 heq1 heq2
    obtain ⟨hb1, hk1⟩ := locateLinker_bounds heq1
    obtain ⟨hb2, hk2⟩ := locateLinker_bounds heq2
    by_cases hz12 : s1 = 0 ∧ s2 = 0
    · rw [if_pos hz12]
      exact Or.inl ⟨"LX", by simp, rfl⟩
    rw [if_neg hz12]
    by_cases hz1 : s1 = 0
    · rw [if_pos hz1]
      exact Or.inl ⟨"L1", by simp, rfl⟩
    rw [if_neg hz1]
    by_cases hz2 : s2 = 0
    · rw [if_pos hz2]
      exact Or.inl ⟨"L2", by simp, rfl⟩
    rw [if_neg hz2]
    rcases deriveBc2_shape bcs (pyUpper read) s1 k1 s2 k2 hb1 (by omega) (by omega) with
      h | h | h | h | h | h
    · exact Or.inl ⟨"I", by simp, h⟩
    · exact Or.inl ⟨"D", by simp, h⟩
    · exact Or.inl ⟨"J", by simp, h⟩
    · exact Or.inl ⟨"K", by simp, h⟩
    · exact Or.inl ⟨"B", by simp, h⟩
    · exact Or.inr h

/-- When both linkers are located with nonzero start offsets, `make_tags`
proceeds to block derivation. -/
theorem make_tags_located {A : List Char → List Char → Alignment}
    {bcs : List (List Char)} {read : List Char} {s1 k1 s2 k2 : Int}
    (h1 : locateLinker (A (pyUpper read) linker1) = some (s1, k1))
    (h2 : locateLinker (A (pyUpper read) linker2) = some (s2, k2))
    (hs1 : s1 ≠ 0) (hs2 : s2 ≠ 0) :
    make_tags A bcs read = deriveBc2 bcs (pyUpper read) s1 k1 s2 k2 := by
  unfold make_tags
  simp [h1, h2, hs1, hs2]

/-! ### C3 and C10: the barcode-block matcher -/

/-- Modelled from the spec (§4.3): "Accept the first candidate (in dictionary
order) satisfying: score ≥ 4 when block length is 5, or score ≥ 5 when block
length is 6." -/
def specAccepts (block bc : List Char) : Bool :=
  decide ((block.length = 5 ∧ 4 ≤ globalScore (-1) (-1) bc block) ∨
          (block.length = 6 ∧ 5 ≤ globalScore (-1) (-1) bc block))

/-- Claim C3: for a block of 5 or 6 symbols, `fix_block` returns the first
dictionary entry, in dictionary order, whose global-alignment score reaches
the length-dependent threshold (≥ 4 for length 5, ≥ 5 for length 6) — even
when a later entry scores strictly higher — and `none` when no entry
qualifies; i.e. it coincides with `List.find?` of the spec's acceptance
test. -/
theorem c3_first_qualifying (bcs : List (List Char)) (block : List Char)
    (h : block.length = 5 ∨ block.length = 6) :
    fix_block bcs block = bcs.find? (specAccepts block) := by
  induction bcs with
  | nil => rfl
  | cons bc rest ih =>
      unfold fix_block
      rw [List.find?_cons]
      simp only []
      by_cases hacc : specAccepts block bc = true
      · rw [hacc]
        rw [if_pos]
        unfold specAccepts at hacc
        rw [decide_eq_true_iff] at hacc
        rcases hacc with ⟨h5, hsc⟩ | ⟨h6, hsc⟩
        · exact Or.inl ⟨h5, hsc⟩
        · exact Or.inr ⟨by omega, hsc⟩
      · rw [Bool.not_eq_true] at hacc
        rw [hacc]
        rw [if_neg, ih]
        unfold specAccepts at hacc
        rw [decide_eq_false_iff_not] at hacc
        intro hcode
        rcases hcode with ⟨h5, hsc⟩ | ⟨h6, hsc⟩
        · exact hacc (Or.inl ⟨h5, hsc⟩)
        · rcases h with h | h
          · omega
          · exact hacc (Or.inr ⟨h, hsc⟩)

/-- Witness for C3: with dictionary `[AAAAAT, AAAAAA]` and block `AAAAAA`,
the first entry `AAAAAT` scores 5 (one mismatch) and qualifies, so it wins
over the later exact match `AAAAAA` (score 6) — dictionary order beats a
higher-scoring later entry. -/
theorem c3_first_qualifying_witness :
    ("AAAAAA".toList.length = 5 ∨ "AAAAAA".toList.length = 6) ∧
    fix_block ["AAAAAT".toList, "AAAAAA".toList] "AAAAAA".toList =
      List.find? (specAccepts "AAAAAA".toList) ["AAAAAT".toList, "AAAAAA".toList] ∧
    fix_block ["AAAAAT".toList, "AAAAAA".toList] "AAAAAA".toList = some "AAAAAT".toList ∧
    globalScore (-1) (-1) "AAAAAA".toList "AAAAAA".toList = 6 :=
  ⟨Or.inr (by decide),
   c3_first_qualifying ["AAAAAT".toList, "AAAAAA".toList] "AAAAAA".toList (Or.inr (by decide)),
   by decide, by decide⟩

/-- Claim C10: a 7-symbol block (as derived on the one-insertion path of
`make_tags`, line 107) is evaluated by `fix_block` under the same acceptance
threshold as a 6-symbol block: the first dictionary entry with global
alignment score ≥ 5 is accepted (`len(block) >= 6` in line 46 of the
source), a case on which the spec is silent. -/
theorem c10_seven_symbol_block (bcs : List (List Char)) (block : List Char)
    (h : block.length = 7) :
    fix_block bcs block =
      bcs.find? (fun bc => decide (5 ≤ globalScore (-1) (-1) bc block)) := by
  induction bcs with
  | nil => rfl
  | cons bc rest ih =>
      unfold fix_block
      rw [List.find?_cons]
      simp only []
      by_cases hacc : 5 ≤ globalScore (-1) (-1) bc block
      · rw [decide_eq_true hacc, if_pos (Or.inr ⟨by omega, hacc⟩)]
      · rw [decide_eq_false hacc, if_neg, ih]
        intro hcode
        rcases hcode with ⟨h5, _⟩ | ⟨_, hsc⟩
        · omega
        · exact hacc hsc

/-- Witness for C10: the 7-symbol block `AACGGTT` (entry `AACGTT` with one
inserted symbol, i.e. within two edits) is accepted: its global-alignment
score against `AACGTT` is 5. -/
theorem c10_seven_symbol_block_witness :
    "AACGGTT".toList.length = 7 ∧
    fix_block ["AACGTT".toList] "AACGGTT".toList =
      List.find? (fun bc => decide (5 ≤ globalScore (-1) (-1) bc "AACGGTT".toList))
        ["AACGTT".toList] ∧
    fix_block ["AACGTT".toList] "AACGGTT".toList = some "AACGTT".toList :=
  ⟨by decide, c10_seven_symbol_block ["AACGTT".toList] "AACGGTT".toList (by decide), by decide⟩

/-! ### C7 and C9: result shape and absence of exceptions -/

/-- Claim C7: for every aligner, dictionary and read, the result of
`make_tags` is exactly one variant — either a single failure tag whose error
code is from the closed set {LX, L1, L2, I, D, J, K, B}, or a success of a
barcode tag whose value is the concatenation of exactly three dictionary
members and a UMI tag of exactly 8 symbols.  The two variants are mutually
exclusive (a failure list starts with an "XE" tag, a success list with an
"XB" tag). -/
theorem c7_tagset_shape (A : List Char → List Char → Alignment)
    (bcs : List (List Char)) (read : List Char) :
    (∃ e, e ∈ ["LX", "L1", "L2", "I", "D", "J", "K", "B"] ∧
      make_tags A bcs read = .ok [("XE", e, "Z")]) ∨
    ∃ b1 b2 b3 u, b1 ∈ bcs ∧ b2 ∈ bcs ∧ b3 ∈ bcs ∧ List.length u = 8 ∧
      make_tags A bcs read =
        .ok [("XB", (b1 ++ (b2 ++ b3)).asString, "Z"), ("XU", u.asString, "Z")] :=
  make_tags_cases A bcs read

/-- Claim C9: for every aligner, dictionary and input string, `make_tags`
terminates with an ordinary tag list: no exception escapes.  The only raising
operation in its body, `hamming_dist` (whose unequal-length `ValueError` is
the `Except.error` branch), is consumed by the try/except modelled in
`hammingOrInf`, so the result is always `Except.ok`. -/
theorem c9_no_exception (A : List Char → List Char → Alignment)
    (bcs : List (List Char)) (read : List Char) :
    ∃ ts, make_tags A bcs read = .ok ts := by
  rcases make_tags_cases A bcs read with ⟨e, _, h⟩ | ⟨b1, b2, b3, u, _, _, _, _, h⟩
  · exact ⟨_, h⟩
  · exact ⟨_, h⟩

/-! ### C4, C5, C6: the decision tree between the linker errors and the
barcode-correction step -/

/-- Gap classification of `make_tags` once both linkers are located with
nonzero start offsets. -/
theorem deriveBc2_gap_cases {A : List Char → List Char → Alignment}
    {bcs : List (List Char)} {read : List Char} {s1 k1 s2 k2 : Int}
    (h1 : locateLinker (A (pyUpper read) linker1) = some (s1, k1))
    (h2 : locateLinker (A (pyUpper read) linker2) = some (s2, k2))
    (hs1 : s1 ≠ 0) (hs2 : s2 ≠ 0) :
    (s2 - s1 = 21 + k1 → make_tags A bcs read =
      deriveBc1 bcs (pyUpper read) s1 s2 k2 (pySlice (pyUpper read) (s2 - 6) s2)) ∧
    (s2 - s1 = 20 + k1 → make_tags A bcs read =
      deriveBc1 bcs (pyUpper read) s1 s2 k2 (pySlice (pyUpper read) (s2 - 5) s2)) ∧
    (s2 - s1 = 22 + k1 → make_tags A bcs read =
      deriveBc1 bcs (pyUpper read) s1 s2 k2 (pySlice (pyUpper read) (s2 - 7) s2)) ∧
    (s2 - s1 ≠ 21 + k1 → s2 - s1 ≠ 20 + k1 → s2 - s1 ≠ 22 + k1 →
      make_tags A bcs read = .ok [("XE", "I", "Z")]) := by
  rw [make_tags_located h1 h2 hs1 hs2]
  unfold deriveBc2
  refine ⟨fun hg => ?_, fun hg => ?_, fun hg => ?_, fun hg1 hg2 hg3 => ?_⟩
  · rw [if_pos hg]
  · rw [if_neg (by omega), if_pos hg]
  · rw [if_neg (by omega), if_neg (by omega), if_pos hg]
  · rw [if_neg hg1, if_neg hg2, if_neg hg3]

/-- Claim C4 (amended): for every read in which both linkers are located with
*nonzero* start offsets (the code treats a located linker with start offset 0
as an unlocated one, see C1 and `c4_counterexample`), `make_tags` classifies
the gap `s2 − s1`: at `21 + k1` it continues with block 2 = the 6 symbols
immediately before `s2`, at `20 + k1` with the 5 symbols before `s2`, at
`22 + k1` with the 7 symbols before `s2`, and for every other gap it returns
error `I`. -/
theorem c4_block2_gap_classification {A : List Char → List Char → Alignment}
    {bcs : List (List Char)} {read : List Char} {s1 k1 s2 k2 : Int}
    (h1 : locateLinker (A (pyUpper read) linker1) = some (s1, k1))
    (h2 : locateLinker (A (pyUpper read) linker2) = some (s2, k2))
    (hs1 : s1 ≠ 0) (hs2 : s2 ≠ 0) :
    (s2 - s1 = 21 + k1 → make_tags A bcs read =
      deriveBc1 bcs (pyUpper read) s1 s2 k2 (pySlice (pyUpper read) (s2 - 6) s2)) ∧
    (s2 - s1 = 20 + k1 → make_tags A bcs read =
      deriveBc1 bcs (pyUpper read) s1 s2 k2 (pySlice (pyUpper read) (s2 - 5) s2)) ∧
    (s2 - s1 = 22 + k1 → make_tags A bcs read =
      deriveBc1 bcs (pyUpper read) s1 s2 k2 (pySlice (pyUpper read) (s2 - 7) s2)) ∧
    (s2 - s1 ≠ 21 + k1 → s2 - s1 ≠ 20 + k1 → s2 - s1 ≠ 22 + k1 →
      make_tags A bcs read = .ok [("XE", "I", "Z")]) :=
  deriveBc2_gap_cases h1 h2 hs1 hs2

/-- Witness for C4: a fixed aligner locating linker 1 at 6 and linker 2 at
26 (gap 20, the one-deletion case). -/
theorem c4_block2_gap_classification_witness :
    (locateLinker (fixedAligner (mkAl 15 6 21) (mkAl 15 26 41)
        (pyUpper (List.replicate 45 'A')) linker1) = some (6, 0)) ∧
    (locateLinker (fixedAligner (mkAl 15 6 21) (mkAl 15 26 41)
        (pyUpper (List.replicate 45 'A')) linker2) = some (26, 0)) ∧
    (6 : Int) ≠ 0 ∧ (26 : Int) ≠ 0 ∧
    (((26 : Int) - 6 = 21 + 0 → make_tags (fixedAligner (mkAl 15 6 21) (mkAl 15 26 41))
        [] (List.replicate 45 'A') = deriveBc1 [] (pyUpper (List.replicate 45 'A')) 6 26 0
          (pySlice (pyUpper (List.replicate 45 'A')) (26 - 6) 26)) ∧
     ((26 : Int) - 6 = 20 + 0 → make_tags (fixedAligner (mkAl 15 6 21) (mkAl 15 26 41))
        [] (List.replicate 45 'A') = deriveBc1 [] (pyUpper (List.replicate 45 'A')) 6 26 0
          (pySlice (pyUpper (List.replicate 45 'A')) (26 - 5) 26)) ∧
     ((26 : Int) - 6 = 22 + 0 → make_tags (fixedAligner (mkAl 15 6 21) (mkAl 15 26 41))
        [] (List.replicate 45 'A') = deriveBc1 [] (pyUpper (List.replicate 45 'A')) 6 26 0
          (pySlice (pyUpper (List.replicate 45 'A')) (26 - 7) 26)) ∧
     ((26 : Int) - 6 ≠ 21 + 0 → (26 : Int) - 6 ≠ 20 + 0 → (26 : Int) - 6 ≠ 22 + 0 →
      make_tags (fixedAligner (mkAl 15 6 21) (mkAl 15 26 41)) [] (List.replicate 45 'A') =
        .ok [("XE", "I", "Z")])) :=
  ⟨by decide, by decide, by decide, by decide,
   c4_block2_gap_classification (by decide) (by decide) (by decide) (by decide)⟩

/-- Block 1 derivation of `make_tags` once both linkers are located with
nonzero start offsets and the gap is admissible. -/
theorem deriveBc1_block1_cases {A : List Char → List Char → Alignment}
    {bcs : List (List Char)} {read : List Char} {s1 k1 s2 k2 : Int}
    (h1 : locateLinker (A (pyUpper read) linker1) = some (s1, k1))
    (h2 : locateLinker (A (pyUpper read) linker2) = some (s2, k2))
    (hs1 : s1 ≠ 0) (hs2 : s2 ≠ 0)
    (hgap : s2 - s1 = 21 + k1 ∨ s2 - s1 = 20 + k1 ∨ s2 - s1 = 22 + k1) :
    (s1 < 5 → make_tags A bcs read = .ok [("XE", "D", "Z")]) ∧
    (s1 = 5 → ∃ b2, make_tags A bcs read =
      checkpointsOnward bcs (pyUpper read) s2 k2 (pySlice (pyUpper read) 0 s1) b2) ∧
    (5 < s1 → ∃ b2, make_tags A bcs read =
      checkpointsOnward bcs (pyUpper read) s2 k2 (pySlice (pyUpper read) (s1 - 6) s1) b2) := by
  obtain ⟨hc4a, hc4b, hc4c, _⟩ := @deriveBc2_gap_cases A bcs read s1 k1 s2 k2 h1 h2 hs1 hs2
  have hb2 : ∃ b2, make_tags A bcs read = deriveBc1 bcs (pyUpper read) s1 s2 k2 b2 := by
    rcases hgap with hg | hg | hg
    · exact ⟨_, hc4a hg⟩
    · exact ⟨_, hc4b hg⟩
    · exact ⟨_, hc4c hg⟩
  obtain ⟨b2, hb2⟩ := hb2
  rw [hb2]
  unfold deriveBc1
  refine ⟨fun hlt => ?_, fun heq => ?_, fun hgt => ?_⟩
  · rw [if_pos hlt]
  · rw [if_neg (by omega), if_pos heq]
    exact ⟨b2, rfl⟩
  · rw [if_neg (by omega), if_neg (by omega)]
    exact ⟨b2, rfl⟩

/-- Claim C5: for every read reaching block 1 derivation (both linkers
located with nonzero offsets and an admissible gap): a start offset below 5
gives error `D` (an underflowing slice is a defined failure, not a crash),
offset exactly 5 continues with block 1 = all symbols before the linker
(`read[:5]`), and a larger offset continues with block 1 = the 6 symbols
immediately before the linker. -/
theorem c5_block1_derivation {A : List Char → List Char → Alignment}
    {bcs : List (List Char)} {read : List Char} {s1 k1 s2 k2 : Int}
    (h1 : locateLinker (A (pyUpper read) linker1) = some (s1, k1))
    (h2 : locateLinker (A (pyUpper read) linker2) = some (s2, k2))
    (hs1 : s1 ≠ 0) (hs2 : s2 ≠ 0)
    (hgap : s2 - s1 = 21 + k1 ∨ s2 - s1 = 20 + k1 ∨ s2 - s1 = 22 + k1) :
    (s1 < 5 → make_tags A bcs read = .ok [("XE", "D", "Z")]) ∧
    (s1 = 5 → ∃ b2, make_tags A bcs read =
      checkpointsOnward bcs (pyUpper read) s2 k2 (pySlice (pyUpper read) 0 s1) b2) ∧
    (5 < s1 → ∃ b2, make_tags A bcs read =
      checkpointsOnward bcs (pyUpper read) s2 k2 (pySlice (pyUpper read) (s1 - 6) s1) b2) :=
  deriveBc1_block1_cases h1 h2 hs1 hs2 hgap

/-- Witness for C5: a fixed aligner locating linker 1 at 6 and linker 2 at
27 (gap 21); start offset 6 > 5 takes the 6-symbols-before branch. -/
theorem c5_block1_derivation_witness :
    (locateLinker (fixedAligner (mkAl 15 6 21) (mkAl 15 27 42)
        (pyUpper (List.replicate 46 'C')) linker1) = some (6, 0)) ∧
    (locateLinker (fixedAligner (mkAl 15 6 21) (mkAl 15 27 42)
        (pyUpper (List.replicate 46 'C')) linker2) = some (27, 0)) ∧
    (6 : Int) ≠ 0 ∧ (27 : Int) ≠ 0 ∧
    ((27 : Int) - 6 = 21 + 0 ∨ (27 : Int) - 6 = 20 + 0 ∨ (27 : Int) - 6 = 22 + 0) ∧
    (((6 : Int) < 5 → make_tags (fixedAligner (mkAl 15 6 21) (mkAl 15 27 42)) []
        (List.replicate 46 'C') = .ok [("XE", "D", "Z")]) ∧
     ((6 : Int) = 5 → ∃ b2, make_tags (fixedAligner (mkAl 15 6 21) (mkAl 15 27 42)) []
        (List.replicate 46 'C') = checkpointsOnward [] (pyUpper (List.replicate 46 'C')) 27 0
          (pySlice (pyUpper (List.replicate 46 'C')) 0 6) b2) ∧
     ((5 : Int) < 6 → ∃ b2, make_tags (fixedAligner (mkAl 15 6 21) (mkAl 15 27 42)) []
        (List.replicate 46 'C') = checkpointsOnward [] (pyUpper (List.replicate 46 'C')) 27 0
          (pySlice (pyUpper (List.replicate 46 'C')) (6 - 6) 6) b2)) :=
  ⟨by decide, by decide, by decide, by decide, Or.inl (by decide),
   @c5_block1_derivation (fixedAligner (mkAl 15 6 21) (mkAl 15 27 42)) []
     (List.replicate 46 'C') 6 0 27 0 (by decide) (by decide) (by decide) (by decide)
     (Or.inl (by decide))⟩

/-- Claim C6: for every read reaching the checkpoint steps, `make_tags`
returns error `J` exactly when the 3 symbols at offset `s2 + 21 + k2` are at
Hamming distance > 1 from "ACG" (a slice of any other length counting as
infinite distance), and — when that check passes — error `K` exactly when the
3 symbols at offset `s2 + 32 + k2` are at Hamming distance > 1 from "GAC". -/
theorem c6_checkpoint_errors {A : List Char → List Char → Alignment}
    {bcs : List (List Char)} {read : List Char} {s1 k1 s2 k2 : Int}
    (h1 : locateLinker (A (pyUpper read) linker1) = some (s1, k1))
    (h2 : locateLinker (A (pyUpper read) linker2) = some (s2, k2))
    (hs1 : s1 ≠ 0) (hs2 : s2 ≠ 0)
    (hgap : s2 - s1 = 21 + k1 ∨ s2 - s1 = 20 + k1 ∨ s2 - s1 = 22 + k1)
    (hs15 : 5 ≤ s1) :
    (make_tags A bcs read = .ok [("XE", "J", "Z")] ↔
      distGtOne (hammingOrInf (pySlice (pyUpper read) (s2 + 21 + k2) (s2 + 24 + k2))
        "ACG".toList) = true) ∧
    (distGtOne (hammingOrInf (pySlice (pyUpper read) (s2 + 21 + k2) (s2 + 24 + k2))
        "ACG".toList) = false →
      (make_tags A bcs read = .ok [("XE", "K", "Z")] ↔
        distGtOne (hammingOrInf (pySlice (pyUpper read) (s2 + 32 + k2) (s2 + 35 + k2))
          "GAC".toList) = true)) := by
  obtain ⟨hD, hEq, hGt⟩ := deriveBc1_block1_cases h1 h2 hs1 hs2 hgap
  have hcp : ∃ bc1 b2, make_tags A bcs read =
      checkpointsOnward bcs (pyUpper read) s2 k2 bc1 b2 := by
    rcases lt_or_eq_of_le hs15 with hlt | heq5
    · obtain ⟨b2, hb⟩ := hGt hlt
      exact ⟨_, b2, hb⟩
    · obtain ⟨b2, hb⟩ := hEq heq5.symm
      exact ⟨_, b2, hb⟩
  obtain ⟨bc1, b2, hcp⟩ := hcp
  rw [hcp]
  unfold checkpointsOnward
  constructor
  · by_cases hJ : distGtOne (hammingOrInf (pySlice (pyUpper read) (s2 + 21 + k2) (s2 + 24 + k2))
        "ACG".toList) = true
    · rw [if_pos hJ]
      exact ⟨fun _ => hJ, fun _ => rfl⟩
    · rw [Bool.not_eq_true] at hJ
      rw [if_neg (by rw [hJ]; exact Bool.false_ne_true)]
      refine ⟨fun hres => ?_, fun hres => by rw [hres] at hJ; cases hJ⟩
      exfalso
      by_cases hK : distGtOne (hammingOrInf (pySlice (pyUpper read) (s2 + 32 + k2) (s2 + 35 + k2))
          "GAC".toList) = true
      · rw [if_pos hK] at hres
        simp at hres
      · rw [Bool.not_eq_true] at hK
        rw [if_neg (by rw [hK]; exact Bool.false_ne_true)] at hres
        cases e : fixBlocks bcs [bc1, b2, pySlice (pyUpper read) (s2 + 15 + k2) (s2 + 21 + k2)] with
        | none => rw [e] at hres; simp at hres
        | some l => rw [e] at hres; simp at hres
  · intro hJ
    rw [if_neg (by rw [hJ]; exact Bool.false_ne_true)]
    by_cases hK : distGtOne (hammingOrInf (pySlice (pyUpper read) (s2 + 32 + k2) (s2 + 35 + k2))
        "GAC".toList) = true
    · rw [if_pos hK]
      exact ⟨fun _ => hK, fun _ => rfl⟩
    · rw [Bool.not_eq_true] at hK
      rw [if_neg (by rw [hK]; exact Bool.false_ne_true)]
      refine ⟨fun hres => ?_, fun hres => by rw [hres] at hK; cases hK⟩
      exfalso
      cases e : fixBlocks bcs [bc1, b2, pySlice (pyUpper read) (s2 + 15 + k2) (s2 + 21 + k2)] with
      | none => rw [e] at hres; simp at hres
      | some l => rw [e] at hres; simp at hres

/-- Witness for C6: a fixed aligner locating linker 1 at 7 and linker 2 at
28 (gap 21), reaching the checkpoint steps. -/
theorem c6_checkpoint_errors_witness :
    (locateLinker (fixedAligner (mkAl 15 7 22) (mkAl 15 28 43)
        (pyUpper (List.replicate 50 'G')) linker1) = some (7, 0)) ∧
    (locateLinker (fixedAligner (mkAl 15 7 22) (mkAl 15 28 43)
        (pyUpper (List.replicate 50 'G')) linker2) = some (28, 0)) ∧
    (7 : Int) ≠ 0 ∧ (28 : Int) ≠ 0 ∧
    ((28 : Int) - 7 = 21 + 0 ∨ (28 : Int) - 7 = 20 + 0 ∨ (28 : Int) - 7 = 22 + 0) ∧
    (5 : Int) ≤ 7 ∧
    ((make_tags (fixedAligner (mkAl 15 7 22) (mkAl 15 28 43)) [] (List.replicate 50 'G') =
        .ok [("XE", "J", "Z")] ↔
      distGtOne (hammingOrInf (pySlice (pyUpper (List.replicate 50 'G')) (28 + 21 + 0) (28 + 24 + 0))
        "ACG".toList) = true) ∧
     (distGtOne (hammingOrInf (pySlice (pyUpper (List.replicate 50 'G')) (28 + 21 + 0) (28 + 24 + 0))
        "ACG".toList) = false →
      (make_tags (fixedAligner (mkAl 15 7 22) (mkAl 15 28 43)) [] (List.replicate 50 'G') =
          .ok [("XE", "K", "Z")] ↔
        distGtOne (hammingOrInf (pySlice (pyUpper (List.replicate 50 'G')) (28 + 32 + 0) (28 + 35 + 0))
          "GAC".toList) = true))) :=
  ⟨by decide, by decide, by decide, by decide, Or.inl (by decide), by decide,
   @c6_checkpoint_errors (fixedAligner (mkAl 15 7 22) (mkAl 15 28 43)) []
     (List.replicate 50 'G') 7 0 28 0 (by decide) (by decide) (by decide) (by decide)
     (Or.inl (by decide)) (by decide)⟩

/-! ### C1, C2, C4: concrete reads evaluated through the spec-modelled
aligner -/

theorem linker1_length : linker1.length = 15 := rfl

theorem linker2_length : linker2.length = 15 := rfl

/-- `pySlice_extract` with the boundaries given as arbitrary integer
expressions. -/
theorem pySlice_extract' (xs ys zs : List Char) (a b : Int)
    (ha : a = (xs.length : Int)) (hb : b = (xs.length : Int) + (ys.length : Int)) :
    pySlice (xs ++ ys ++ zs) a b = ys := by
  rw [ha, hb]
  exact pySlice_extract xs ys zs

/-- A read that starts with linker 1 at offset 0, followed by a 6-symbol
block and linker 2 at offset 21. -/
def zeroRead : List Char := linker1 ++ "AAATTT".toList ++ linker2

theorem zeroRead_upper : pyUpper zeroRead = zeroRead := by decide

theorem zeroRead_loc1 : locateLinker (alignerSpec zeroRead linker1) = some (0, 0) := by decide

theorem zeroRead_loc2 : locateLinker (alignerSpec zeroRead linker2) = some (21, 0) := by decide

/-- Claim C1 (the code contradicts it): on a read carrying linker 1 at start
offset 0 and linker 2 at start offset 21, the linker locator locates both
linkers, yet `make_tags` returns error `L1` — Python's `not starts[0]` (line
95/97) is true for the integer 0, so a located linker with start offset 0 is
treated as an unlocated one, contradicting the claim (and the docstring
"L1 = linker 1 not aligned correctly"). -/
theorem c1_zero_offset_linker_error :
    locateLinker (alignerSpec zeroRead linker1) = some (0, 0) ∧
    locateLinker (alignerSpec zeroRead linker2) = some (21, 0) ∧
    make_tags alignerSpec [] zeroRead = .ok [("XE", "L1", "Z")] :=
  ⟨zeroRead_loc1, zeroRead_loc2, by
    unfold make_tags
    rw [zeroRead_upper]
    simp only [zeroRead_loc1, zeroRead_loc2]
    decide⟩

/-- A read with linker 1 at offset 0 and linker 2 at offset 21 (gap 21). -/
def c4Read : List Char := linker1 ++ "CCCGGG".toList ++ linker2

theorem c4Read_upper : pyUpper c4Read = c4Read := by decide

theorem c4Read_loc1 : locateLinker (alignerSpec c4Read linker1) = some (0, 0) := by decide

theorem c4Read_loc2 : locateLinker (alignerSpec c4Read linker2) = some (21, 0) := by decide

/-- Counterexample to claim C4 as stated: both linkers are located (start
offsets 0 and 21, `k1 = 0`) and the gap is `21 + k1`, so the claim mandates
deriving block 2 (the 6 symbols before offset 21) and continuing — which
would end in error `D` here — but `make_tags` returns error `L1` instead,
because a located linker with start offset 0 is treated as unlocated. -/
theorem c4_counterexample :
    locateLinker (alignerSpec c4Read linker1) = some (0, 0) ∧
    locateLinker (alignerSpec c4Read linker2) = some (21, 0) ∧
    (21 : Int) - 0 = 21 + 0 ∧
    make_tags alignerSpec [] c4Read = .ok [("XE", "L1", "Z")] ∧
    deriveBc1 [] c4Read 0 21 0 (pySlice c4Read (21 - 6) 21) = .ok [("XE", "D", "Z")] ∧
    (Except.ok [("XE", "L1", "Z")] : Except String (List Tag)) ≠ .ok [("XE", "D", "Z")] :=
  ⟨c4Read_loc1, c4Read_loc2, by decide, by
    unfold make_tags
    rw [c4Read_upper]
    simp only [c4Read_loc1, c4Read_loc2]
    decide, by decide, by decide⟩

/-- The synthetic read of claim C2: `block1(6) + linker1(15) + block2(6) +
linker2(15) + block3(6) + "ACG" + umi(8) + "GAC"`. -/
def synthRead (b1 b2 b3 u : List Char) : List Char :=
  b1 ++ linker1 ++ b2 ++ linker2 ++ b3 ++ "ACG".toList ++ u ++ "GAC".toList

/-- The synthetic read is untouched by `read.upper()` when its parts are. -/
theorem synthRead_upper (b1 b2 b3 u : List Char) (hu1 : pyUpper b1 = b1)
    (hu2 : pyUpper b2 = b2) (hu3 : pyUpper b3 = b3) (huu : pyUpper u = u) :
    pyUpper (synthRead b1 b2 b3 u) = synthRead b1 b2 b3 u := by
  unfold pyUpper at *
  unfold synthRead
  simp only [List.map_append, hu1, hu2, hu3, huu]
  have hL1 : linker1.map Char.toUpper = linker1 := by decide
  have hL2 : linker2.map Char.toUpper = linker2 := by decide
  have hACG : "ACG".toList.map Char.toUpper = "ACG".toList := by decide
  have hGAC : "GAC".toList.map Char.toUpper = "GAC".toList := by decide
  rw [hL1, hL2, hACG, hGAC]

/-- Claim C2 (amended): for every synthetic read `block1(6) + linker1 +
block2(6) + linker2 + block3(6) + "ACG" + umi(8) + "GAC"` in which each block
is not merely a dictionary entry but the *first* dictionary entry reaching
its `fix_block` threshold (no earlier entry lies within one edit of it), and
with the linkers located at their embedded offsets 6 and 27 with `k = 0`,
`make_tags` returns success with cell barcode `block1 + block2 + block3` and
UMI exactly the 8-symbol substring. -/
theorem c2_synthetic_read_success {A : List Char → List Char → Alignment}
    {bcs : List (List Char)} {b1 b2 b3 u : List Char}
    (hl1 : b1.length = 6) (hl2 : b2.length = 6) (hl3 : b3.length = 6)
    (hlu : u.length = 8)
    (hu1 : pyUpper b1 = b1) (hu2 : pyUpper b2 = b2) (hu3 : pyUpper b3 = b3)
    (huu : pyUpper u = u)
    (hf1 : fix_block bcs b1 = some b1) (hf2 : fix_block bcs b2 = some b2)
    (hf3 : fix_block bcs b3 = some b3)
    (hA1 : locateLinker (A (synthRead b1 b2 b3 u) linker1) = some (6, 0))
    (hA2 : locateLinker (A (synthRead b1 b2 b3 u) linker2) = some (27, 0)) :
    make_tags A bcs (synthRead b1 b2 b3 u) =
      .ok [("XB", (b1 ++ (b2 ++ b3)).asString, "Z"), ("XU", u.asString, "Z")] := by
  have hup := synthRead_upper b1 b2 b3 u hu1 hu2 hu3 huu
  rw [make_tags_located (by rw [hup]; exact hA1) (by rw [hup]; exact hA2)
    (by decide) (by decide), hup]
  have e_bc2 : pySlice (synthRead b1 b2 b3 u) (27 - 6) 27 = b2 := by
    have hs : synthRead b1 b2 b3 u = (b1 ++ linker1) ++ b2 ++
        (linker2 ++ (b3 ++ ("ACG".toList ++ (u ++ "GAC".toList)))) := by
      unfold synthRead
      simp [List.append_assoc]
    rw [hs]
    exact pySlice_extract' _ _ _ _ _
      (by rw [List.length_append, hl1, linker1_length]; decide)
      (by rw [List.length_append, hl1, linker1_length, hl2]; decide)
  have e_bc1 : pySlice (synthRead b1 b2 b3 u) (6 - 6) 6 = b1 := by
    have hs : synthRead b1 b2 b3 u = ([] : List Char) ++ b1 ++
        (linker1 ++ (b2 ++ (linker2 ++ (b3 ++ ("ACG".toList ++ (u ++ "GAC".toList)))))) := by
      unfold synthRead
      simp [List.append_assoc]
    rw [hs]
    exact pySlice_extract' _ _ _ _ _ (by decide) (by rw [hl1]; decide)
  have e_acg : pySlice (synthRead b1 b2 b3 u) (27 + 21 + 0) (27 + 24 + 0) = "ACG".toList := by
    have hs : synthRead b1 b2 b3 u = (b1 ++ linker1 ++ b2 ++ linker2 ++ b3) ++
        "ACG".toList ++ (u ++ "GAC".toList) := by
      unfold synthRead
      simp [List.append_assoc]
    rw [hs]
    exact pySlice_extract' _ _ _ _ _
      (by simp only [List.length_append, hl1, hl2, hl3, linker1_length, linker2_length]; decide)
      (by simp only [List.length_append, hl1, hl2, hl3, linker1_length, linker2_length]; decide)
  have e_gac : pySlice (synthRead b1 b2 b3 u) (27 + 32 + 0) (27 + 35 + 0) = "GAC".toList := by
    have hs : synthRead b1 b2 b3 u = (b1 ++ linker1 ++ b2 ++ linker2 ++ b3 ++
        "ACG".toList ++ u) ++ "GAC".toList ++ ([] : List Char) := by
      unfold synthRead
      simp [List.append_assoc]
    rw [hs]
    exact pySlice_extract' _ _ _ _ _
      (by simp only [List.length_append, hl1, hl2, hl3, hlu, linker1_length, linker2_length]; decide)
      (by simp only [List.length_append, hl1, hl2, hl3, hlu, linker1_length, linker2_length]; decide)
  have e_bc3 : pySlice (synthRead b1 b2 b3 u) (27 + 15 + 0) (27 + 21 + 0) = b3 := by
    have hs : synthRead b1 b2 b3 u = (b1 ++ linker1 ++ b2 ++ linker2) ++ b3 ++
        ("ACG".toList ++ (u ++ "GAC".toList)) := by
      unfold synthRead
      simp [List.append_assoc]
    rw [hs]
    exact pySlice_extract' _ _ _ _ _
      (by simp only [List.length_append, hl1, hl2, linker1_length, linker2_length]; decide)
      (by simp only [List.length_append, hl1, hl2, hl3, linker1_length, linker2_length]; decide)
  have e_umi : pySlice (synthRead b1 b2 b3 u) (27 + 24 + 0) (27 + 32 + 0) = u := by
    have hs : synthRead b1 b2 b3 u = (b1 ++ linker1 ++ b2 ++ linker2 ++ b3 ++
        "ACG".toList) ++ u ++ "GAC".toList := by
      unfold synthRead
      simp [List.append_assoc]
    rw [hs]
    exact pySlice_extract' _ _ _ _ _
      (by simp only [List.length_append, hl1, hl2, hl3, linker1_length, linker2_length]; decide)
      (by simp only [List.length_append, hl1, hl2, hl3, hlu, linker1_length, linker2_length]; decide)
  unfold deriveBc2
  rw [if_pos (by decide), e_bc2]
  unfold deriveBc1
  rw [if_neg (by decide), if_neg (by decide), e_bc1]
  unfold checkpointsOnward
  rw [e_acg, if_neg (by decide), e_gac, if_neg (by decide), e_bc3]
  unfold fixBlocks
  rw [hf1]
  simp only []
  rw [if_neg (by intro h; rw [h] at hl1; cases hl1)]
  unfold fixBlocks
  rw [hf2]
  simp only []
  rw [if_neg (by intro h; rw [h] at hl2; cases hl2)]
  unfold fixBlocks
  rw [hf3]
  simp only []
  rw [if_neg (by intro h; rw [h] at hl3; cases hl3)]
  unfold fixBlocks
  simp only [Option.map_some, Option.map]
  rw [e_umi]
  simp [List.flatten]

/-- The concrete synthetic read used for C2: blocks `AAAAAT`, UMI
`ACGTACGT`. -/
def c2Read : List Char :=
  synthRead "AAAAAT".toList "AAAAAT".toList "AAAAAT".toList "ACGTACGT".toList

theorem c2Read_upper : pyUpper c2Read = c2Read := by decide

theorem c2Read_loc1 : locateLinker (alignerSpec c2Read linker1) = some (6, 0) := by decide

theorem c2Read_loc2 : locateLinker (alignerSpec c2Read linker2) = some (27, 0) := by decide

/-- Witness for C2 (amended): with the one-entry dictionary `[AAAAAT]`, each
block `AAAAAT` is the first qualifying entry for itself, and the
spec-modelled aligner locates the embedded linkers at 6 and 27, so the
synthetic read is tagged `AAAAATAAAAATAAAAAT` / `ACGTACGT`. -/
theorem c2_synthetic_read_success_witness :
    fix_block ["AAAAAT".toList] "AAAAAT".toList = some "AAAAAT".toList ∧
    locateLinker (alignerSpec c2Read linker1) = some (6, 0) ∧
    make_tags alignerSpec ["AAAAAT".toList] c2Read =
      .ok [("XB", ("AAAAAT".toList ++ ("AAAAAT".toList ++ "AAAAAT".toList)).asString, "Z"),
           ("XU", "ACGTACGT".toList.asString, "Z")] :=
  ⟨by decide, c2Read_loc1,
   c2_synthetic_read_success (by decide) (by decide) (by decide) (by decide)
     (by decide) (by decide) (by decide) (by decide)
     (by decide) (by decide) (by decide) c2Read_loc1 c2Read_loc2⟩

/-- Counterexample to claim C2 as stated: with dictionary
`[AAAAAA, AAAAAT]` and exact dictionary entry `AAAAAT` as all three blocks,
`fix_block` returns the *earlier* entry `AAAAAA` (score 5 ≥ 5), so the cell
barcode is `AAAAAAAAAAAAAAAAAA`, not `block1+block2+block3 =
AAAAATAAAAATAAAAAT`. -/
theorem c2_counterexample :
    make_tags alignerSpec ["AAAAAA".toList, "AAAAAT".toList] c2Read =
      .ok [("XB", "AAAAAAAAAAAAAAAAAA", "Z"), ("XU", "ACGTACGT", "Z")] ∧
    ("AAAAAAAAAAAAAAAAAA" : String) ≠ "AAAAATAAAAATAAAAAT" ∧
    make_tags alignerSpec ["AAAAAA".toList, "AAAAAT".toList] c2Read ≠
      .ok [("XB", "AAAAATAAAAATAAAAAT", "Z"), ("XU", "ACGTACGT", "Z")] := by
  have heval : make_tags alignerSpec ["AAAAAA".toList, "AAAAAT".toList] c2Read =
      .ok [("XB", "AAAAAAAAAAAAAAAAAA", "Z"), ("XU", "ACGTACGT", "Z")] := by
    unfold make_tags
    rw [c2Read_upper]
    simp only [c2Read_loc1, c2Read_loc2]
    decide
  refine ⟨heval, by decide, ?_⟩
  rw [heval]
  decide

/-! ### C8: the parallel read processor

`main` (line 176-177 of the source) tags all first reads with
`multiprocessing.Pool(cores).map(make_tags, reads)`.  The pool itself is
external library code, so it is modelled from the spec (§4.5): the input is
cut into chunks, each chunk is mapped by one worker, the completed chunks —
in whatever order the workers finish — are placed back at their chunk index,
and the result is the concatenation in index order. -/

/-- Cut a list into chunks of `c` elements (every chunk non-empty; chunk
size 1 when `c = 0`). -/
def chunkList (c : Nat) : List α → List (List α)
  | [] => []
  | x :: rest => (x :: rest.take (c - 1)) :: chunkList c (rest.drop (c - 1))
termination_by xs => xs.length
decreasing_by simp only [List.length_drop, List.length_cons]; omega

/-- Modelled from the spec: the chunk size a pool of `n` workers uses for
`len` items (as `multiprocessing.Pool.map` computes it). -/
def chunksize (n len : Nat) : Nat :=
  if len % (n * 4) = 0 then len / (n * 4) else len / (n * 4) + 1

/-- Modelled from the spec: the pool's tasks — the chunks of the input, each
mapped by a worker and tagged with its chunk index. -/
def taskResults (n : Nat) (f : α → β) (xs : List α) : List (Nat × List β) :=
  ((chunkList (chunksize n xs.length) xs).map (List.map f)).enum

/-- Modelled from the spec: index-ordered reassembly — slot `i` of the
result receives the completed task carrying index `i`, regardless of the
order in which tasks were completed. -/
def collectOrdered (count : Nat) (done : List (Nat × List β)) : List β :=
  ((List.range count).map fun i =>
    ((done.find? fun p => p.1 == i).map Prod.snd).getD []).flatten

/-- Modelled from the spec: `ParallelReadProcessor` — dispatch to `n`
workers, collect, reassemble in input order. -/
def poolMap (n : Nat) (f : α → β) (xs : List α) : List β :=
  collectOrdered (chunkList (chunksize n xs.length) xs).length (taskResults n f xs)

/-- Concatenating the chunks restores the input. -/
theorem chunkList_flatten (c : Nat) (xs : List α) : (chunkList c xs).flatten = xs := by
  have H : ∀ (n : Nat) (ys : List α), ys.length ≤ n → (chunkList c ys).flatten = ys := by
    intro n
    induction n with
    | zero =>
        intro ys hy
        rw [List.length_eq_zero.mp (Nat.le_zero.mp hy)]
        simp [chunkList]
    | succ n ih =>
        intro ys hy
        cases ys with
        | nil => simp [chunkList]
        | cons y rest =>
            rw [chunkList]
            simp only [List.flatten_cons, List.cons_append]
            rw [ih _ (by simp only [List.length_drop]; simp at hy; omega)]
            simp [List.take_append_drop]
  exact H xs.length xs Nat.le.refl

/-- In a permutation of an indexed task list, the task with index `i` is
found and is the `i`-th task. -/
theorem find_task {L : List (List β)} {done : List (Nat × List β)}
    (hperm : done.Perm L.enum) (i : Nat) (hi : i < L.length) :
    done.find? (fun p => p.1 == i) = some (i, L.get ⟨i, hi⟩) := by
  have hmem : (i, L.get ⟨i, hi⟩) ∈ done := by
    rw [hperm.mem_iff, List.mk_mem_enum_iff_get?]
    exact List.get?_eq_get hi
  cases hfind : done.find? (fun p => p.1 == i) with
  | none =>
      rw [List.find?_eq_none] at hfind
      exact absurd (by simp : ((i, L.get ⟨i, hi⟩).1 == i) = true) (hfind _ hmem)
  | some x =>
      obtain ⟨x1, x2⟩ := x
      have hx : (x1, x2) ∈ done := List.mem_of_find?_eq_some hfind
      have hpx : x1 = i := by simpa using List.find?_some hfind
      subst hpx
      have hxe : L.get? x1 = some x2 := by
        rw [← List.mk_mem_enum_iff_get?]
        exact hperm.subset hx
      rw [List.get?_eq_get hi] at hxe
      injection hxe with h2
      rw [h2]

/-- Reassembling any permutation of the task list yields the concatenation
of the chunks in index order. -/
theorem collect_perm {L : List (List β)} {done : List (Nat × List β)}
    (hperm : done.Perm L.enum) : collectOrdered L.length done = L.flatten := by
  unfold collectOrdered
  congr 1
  apply List.ext_get
  · simp
  · intro i h1 h2
    have hi : i < L.length := by simpa using h2
    simp only [List.get_map, List.get_range]
    rw [find_task hperm i hi]
    simp

/-- Claim C8: for every pool size ≥ 1 and every completion order of the
workers (any permutation of the task list), the reassembled result equals
the sequential map of `make_tags` over the reads in input order; in
particular `poolMap` itself equals the sequential map. -/
theorem c8_pool_order (A : List Char → List Char → Alignment)
    (bcs : List (List Char)) (n : Nat) (reads : List (List Char))
    (done : List (Nat × List (Except String (List Tag)))) (hn : 1 ≤ n)
    (hdone : done.Perm (taskResults n (make_tags A bcs) reads)) :
    collectOrdered (chunkList (chunksize n reads.length) reads).length done =
      reads.map (make_tags A bcs) ∧
    poolMap n (make_tags A bcs) reads = reads.map (make_tags A bcs) := by
  have key : ∀ d, d.Perm (taskResults n (make_tags A bcs) reads) →
      collectOrdered (chunkList (chunksize n reads.length) reads).length d =
        reads.map (make_tags A bcs) := by
    intro d hd
    have hlen : (chunkList (chunksize n reads.length) reads).length =
        ((chunkList (chunksize n reads.length) reads).map
          (List.map (make_tags A bcs))).length := by
      rw [List.length_map]
    rw [hlen, collect_perm hd]
    rw [← List.map_flatten, chunkList_flatten]
  exact ⟨key done hdone, key _ (List.Perm.refl _)⟩

/-- Witness for C8: pool size 2 and the tasks completed in reverse order. -/
theorem c8_pool_order_witness :
    (1 ≤ 2) ∧
    collectOrdered (chunkList (chunksize 2 ["ACGT".toList, "TTTT".toList].length)
        ["ACGT".toList, "TTTT".toList]).length
      (taskResults 2 (make_tags (fixedAligner (mkAl 0 0 0) (mkAl 0 0 0)) [])
        ["ACGT".toList, "TTTT".toList]).reverse =
      ["ACGT".toList, "TTTT".toList].map
        (make_tags (fixedAligner (mkAl 0 0 0) (mkAl 0 0 0)) []) :=
  ⟨by decide,
   (c8_pool_order (fixedAligner (mkAl 0 0 0) (mkAl 0 0 0)) [] 2
     ["ACGT".toList, "TTTT".toList] _ (by decide)
     (List.reverse_perm _)).1⟩

end DdSeeker
